import Mathlib

/-!
# Verification of the octo GitHub client library

Shallow embedding of the octo library (a typed client over the GitHub REST
API) and proofs about its reference parsing, reference fetching, tag-chain
resolution, pagination, tree-entry mode codec, blob base64 codec, issue/PR
discrimination, absence-as-Option conveniences and property mutation.

Strings from the Rust source are modelled as `List Char`; machine integers
(`usize`, `u32`) are modelled as `Nat` with explicit range checks where the
source checks for overflow.
-/

namespace Octo

/-! ## String utilities

`splitSlash` models Rust's `str::split('/')` (collected into a vector) and
`joinSlash` models `[&str]::join("/")`. -/

/-- `str::split('/')`: splitting an empty string yields `[""]`, and separators
at the edges or adjacent to each other yield empty segments, exactly as in
Rust. -/
def splitSlash : List Char → List (List Char)
  | [] => [[]]
  | c :: rest =>
    match splitSlash rest with
    | [] => [[c]]
    | group :: groups =>
      if c = '/' then [] :: group :: groups else (c :: group) :: groups

/-- `[&str]::join("/")`. -/
def joinSlash : List (List Char) → List Char
  | [] => []
  | [x] => x
  | x :: xs => x ++ '/' :: joinSlash xs

/-! ## Digit rendering and radix parsing

`fromStrRadix` models Rust's `uN::from_str_radix(src, radix)` (an optional
leading sign, then digits of the radix, with an overflow check against the
integer type's bound); `natToChars` models the standard formatting of an
unsigned integer in a given base (as produced by `{n}` and `{n:o}`). -/

/-- The character for a single digit value (`b'0' + d`). -/
def digitChar (d : Nat) : Char := Char.ofNat (48 + d)

/-- `char::to_digit` restricted to the ASCII decimal digits (the only
characters relevant for radix ≤ 10). -/
def charToDigit (c : Char) : Option Nat :=
  if 48 ≤ c.toNat ∧ c.toNat ≤ 57 then some (c.toNat - 48) else none

/-- The digit-accumulation loop of `from_str_radix`: every character must be a
digit of the radix and overflow past `bound` (`2^32` for `u32`, `2^64` for
`usize`) is an error. -/
def parseDigitsGo (radix bound : Nat) : List Char → Nat → Option Nat
  | [], acc => some acc
  | c :: cs, acc =>
    match charToDigit c with
    | some d =>
      if d < radix then
        if acc * radix + d < bound then parseDigitsGo radix bound cs (acc * radix + d)
        else none
      else none
    | none => none

/-- `uN::from_str_radix`: optional leading `+` or `-` (a negative value
underflows an unsigned integer immediately unless every digit is zero), then
at least one digit. -/
def fromStrRadix (radix bound : Nat) (s : List Char) : Option Nat :=
  match s with
  | [] => none
  | c :: rest =>
    if c = '+' then
      if rest = [] then none else parseDigitsGo radix bound rest 0
    else if c = '-' then
      if rest = [] then none else
        match parseDigitsGo radix bound rest 0 with
        | some 0 => some 0
        | _ => none
    else parseDigitsGo radix bound (c :: rest) 0

/-- `str::parse::<usize>()` on a 64-bit target. -/
def parseUsize (s : List Char) : Option Nat := fromStrRadix 10 (2 ^ 64) s

/-- Little-endian digits of `n` in base `b`, with structural fuel so the
definition evaluates; `fuel = n + 1` always suffices. -/
def toDigitsRevBase (b : Nat) : Nat → Nat → List Nat
  | 0, _ => []
  | fuel + 1, n => if n = 0 then [] else n % b :: toDigitsRevBase b fuel (n / b)

/-- Formatting of `n` in base `b`, most significant digit first; `0` renders
as `"0"`. -/
def natToChars (b : Nat) (n : Nat) : List Char :=
  if n = 0 then ['0'] else ((toDigitsRevBase b (n + 1) n).reverse.map digitChar)

/-- The most-significant-first value of a digit list, as accumulated by
`parseDigitsGo`. -/
def digitsValMS (radix : Nat) (acc : Nat) (l : List Nat) : Nat :=
  l.foldl (fun a d => a * radix + d) acc

/-- The little-endian value of a digit list. -/
def digitsValLE (b : Nat) : List Nat → Nat
  | [] => 0
  | d :: ds => d + b * digitsValLE b ds

/-! ## JSON values and the transport error taxonomy (`src/client/mod.rs`) -/

/-- A JSON value, the wire representation consumed by the serde-derived
deserializers. -/
inductive Json where
  | null
  | bool (b : Bool)
  | num (n : Int)
  | str (s : String)
  | arr (items : List Json)
  | obj (fields : List (String × Json))

/-- Object field lookup, as performed by the serde map visitor. -/
def lookupField (fields : List (String × Json)) (name : String) : Option Json :=
  (fields.find? (fun p => p.1 == name)).map (fun p => p.2)

/-- `ClientRequestError` from `src/client/mod.rs`. -/
inductive ClientRequestError where
  | unavailable
  | build
  | clone
deriving DecidableEq

/-- `ClientResponseError` from `src/client/mod.rs` (the HTTP status
classification: 401/403, 422, 404, other non-2xx, bad body). -/
inductive ClientResponseError where
  | unauthorized (code : Nat) (message : Option String)
  | validation (code : Nat) (message : Option String)
  | nothing (code : Nat) (message : Option String)
  | unhandled (code : Nat) (message : Option String)
  | malformed (reason : String)
  | encoding
deriving DecidableEq

/-- `ClientError` from `src/client/mod.rs`. -/
inductive ClientError where
  | request (e : ClientRequestError)
  | response (e : ClientResponseError)
deriving DecidableEq

/-! ## Reference parsing and display (`src/repository/reference/mod.rs`)

`HandleReference` carries a back-pointer to its repository in the source; the
repository handle plays no role in parsing, display or validation, so the
embedding drops it and keeps the variant payloads. -/

/-- The `ReferenceError` enum. -/
inductive ReferenceError where
  | client (e : ClientError)
  | invalid (reference : List Char)
  | nothing (reference : List Char)
  | circular (reference : List Char)
  | delete
deriving DecidableEq

/-- The three variants of `HandleReference`. -/
inductive Reference where
  | pullRequest (issue : Nat) (branch : List Char)
  | branch (name : List Char)
  | tag (name : List Char)
deriving DecidableEq

/-- The `["refs", "pull", issue, branch]`-family arms of `try_parse`: an
exact two-segment tail takes the branch verbatim, a longer (or shorter) tail
is rejoined with `/`; a non-numeric issue segment is `Invalid`. -/
def parsePullTokens (raw : List Char) (rest : List (List Char)) :
    Except ReferenceError Reference :=
  match rest with
  | [issue, branch] =>
    match parseUsize issue with
    | some n => .ok (.pullRequest n branch)
    | none => .error (.invalid raw)
  | issue :: branches =>
    match parseUsize issue with
    | some n => .ok (.pullRequest n (joinSlash branches))
    | none => .error (.invalid raw)
  | [] => .error (.invalid raw)

/-- The `["refs", "heads", branch]`-family arms of `try_parse`. -/
def parseHeadsTokens (rest : List (List Char)) : Except ReferenceError Reference :=
  match rest with
  | [branch] => .ok (.branch branch)
  | branches => .ok (.branch (joinSlash branches))

/-- The `["refs", "tags", tag]`-family arms of `try_parse`. -/
def parseTagsTokens (rest : List (List Char)) : Except ReferenceError Reference :=
  match rest with
  | [tag] => .ok (.tag tag)
  | tags => .ok (.tag (joinSlash tags))

/-- `HandleReference::try_parse`: tokenize on `/`, accept the fully qualified
and the short form of each kind (the kind keywords are pairwise distinct, so
grouping the `refs`-prefixed arm with its short arm preserves the source's
first-match semantics), otherwise `Invalid`. -/
def tryParseReference (raw : List Char) : Except ReferenceError Reference :=
  match splitSlash raw with
  | tok :: rest =>
    if tok = "refs".data then
      match rest with
      | tok2 :: rest2 =>
        if tok2 = "pull".data then parsePullTokens raw rest2
        else if tok2 = "heads".data then parseHeadsTokens rest2
        else if tok2 = "tags".data then parseTagsTokens rest2
        else .error (.invalid raw)
      | [] => .error (.invalid raw)
    else if tok = "pull".data then parsePullTokens raw rest
    else if tok = "heads".data then parseHeadsTokens rest
    else if tok = "tags".data then parseTagsTokens rest
    else .error (.invalid raw)
  | [] => .error (.invalid raw)

/-- The `Display` impl for `HandleReference`: always the short canonical
form. -/
def displayReference : Reference → List Char
  | .pullRequest issue branch => "pull/".data ++ natToChars 10 issue ++ '/' :: branch
  | .branch name => "heads/".data ++ name
  | .tag name => "tags/".data ++ name

/-- `HandleReference::try_fetch` after the GET has completed: a 404 from the
transport is `Nothing` carrying the raw input, any other transport error is
wrapped as `Client`, and a decoded `ref` name that does not end with the raw
input is also `Nothing`. The remote call itself is abstracted as its result:
either a transport error or the decoded `ref` field of the response body. -/
def tryFetchReference (raw : List Char) (response : Except ClientError (List Char)) :
    Except ReferenceError Reference :=
  match tryParseReference raw with
  | .error e => .error e
  | .ok parsed =>
    match response with
    | .error (ClientError.response (ClientResponseError.nothing _ _)) =>
      .error (.nothing raw)
    | .error e => .error (.client e)
    | .ok name => if List.isSuffixOf raw name then .ok parsed else .error (.nothing raw)

/-! ## Domain error enums of the remaining resources -/

/-- `CompareError` (payload elided; no claim inspects it). -/
inductive CompareError where
  | client (e : ClientError)
deriving DecidableEq

/-- `CommitError` from `src/repository/commit/mod.rs`; `nothing` is the
domain-specific "commit not found" keyed by the requested SHA. -/
inductive CommitError where
  | compare (e : CompareError)
  | reference (e : ReferenceError)
  | client (e : ClientError)
  | nothing (commit : String)
deriving DecidableEq

/-- `IssueCommentError` from `src/repository/issue/comment.rs`. -/
inductive IssueCommentError where
  | client (e : ClientError)
  | author (author : String)
  | nothing (number : Nat)
deriving DecidableEq

/-- `IssueError` from `src/repository/issue/mod.rs`. -/
inductive IssueError where
  | client (e : ClientError)
  | comment (e : IssueCommentError)
  | issue (number : Nat)
  | author (author : String)
  | assignee (assignee : String)
deriving DecidableEq

/-- `BlobError` from `src/repository/blob/mod.rs`. -/
inductive BlobError where
  | client (e : ClientError)
deriving DecidableEq

/-- `TreeError` from `src/repository/tree/mod.rs`. -/
inductive TreeError where
  | client (e : ClientError)
deriving DecidableEq

/-- `HandleRepositoryError` from `src/repository/mod.rs` (the archive payload
is elided; no claim inspects it). -/
inductive HandleRepositoryError where
  | client (e : ClientError)
  | reference (e : ReferenceError)
  | commit (e : CommitError)
  | issue (e : IssueError)
  | blob (e : BlobError)
  | tree (e : TreeError)
  | invalidReference (name : List Char)
  | invalidBranch (name : List Char)
  | invalidTag (name : List Char)
  | defaultBranch (name : List Char)
  | archive
deriving DecidableEq

/-! ## Tag-chain resolution (`HandleReference::try_get_commit`)

The loop body GETs `repos/{repo}/git/tags/{sha}` for each annotated tag; the
remote tag store is abstracted as an association list from tag SHA to the
`object` field of the tag's body. The source loop carries a `HashSet` of
visited SHAs (modelled as a list) and has no bound of its own; the embedding
adds structural fuel and proves separately that `env.length + 1` fuel is
never exhausted. -/

/-- The `CapsuleReference` target union: `{type: "commit"|"tag", sha}`. -/
inductive RefObjectTarget where
  | commit (sha : String)
  | tag (sha : String)
deriving DecidableEq

/-- Looking a tag SHA up in the remote tag store; `none` models a failed
`GET git/tags/{sha}` (a transport error, propagated as `Client`). -/
def lookupTag (env : List (String × RefObjectTarget)) (sha : String) :
    Option RefObjectTarget :=
  (env.find? (fun p => p.1 == sha)).map (fun p => p.2)

/-- Outcome of the resolution loop; `fuelExhausted` is the model's marker for
running out of structural fuel (the source loop is unbounded). -/
inductive ResolveResult where
  | ok (sha : String)
  | repoError (e : HandleRepositoryError)
  | fuelExhausted
deriving DecidableEq

/-- The `loop` of `try_get_commit`: a `commit` target breaks with its SHA; a
`tag` target already in the visited set is fatal
`Reference(Circular{self})`, otherwise it is inserted and its tag object is
fetched and followed. -/
def resolveTargetLoop (env : List (String × RefObjectTarget)) (selfRef : List Char) :
    Nat → RefObjectTarget → List String → ResolveResult
  | 0, _, _ => .fuelExhausted
  | _ + 1, .commit sha, _ => .ok sha
  | fuel + 1, .tag sha, visited =>
    if sha ∈ visited then
      .repoError (.reference (.circular selfRef))
    else
      match lookupTag env sha with
      | none => .repoError (.client (.request .unavailable))
      | some next => resolveTargetLoop env selfRef fuel next (sha :: visited)

/-- `try_get_commit` with the initial `object` of the ref already fetched:
run the loop with an empty visited set (fuel `env.length + 1` is proved
sufficient below). -/
def tryGetCommitSha (env : List (String × RefObjectTarget)) (selfRef : List Char)
    (start : RefObjectTarget) : ResolveResult :=
  resolveTargetLoop env selfRef (env.length + 1) start []

/-- Whether the model ran out of fuel. -/
def ResolveResult.isFuelExhausted : ResolveResult → Bool
  | .fuelExhausted => true
  | _ => false

/-! ## Pagination (`HandleRepository::try_fetch_all`, `HandleIssue::try_fetch_all`)

The loop starts with `page = 0`, increments at the top of each iteration,
requests `per_page=100&page={page}`, appends the page to the collection and
stops when a page has fewer than 100 items. The remote is abstracted as the
finite list of pages it would serve in order; the collector consumes one per
request and also records each request's `(per_page, page)` query pair. -/

/-- One run of the pagination loop: returns the collected items and the
`(per_page, page)` query pairs of the requests issued. -/
def collectPages {α : Type} : List (List α) → Nat → List α × List (Nat × Nat)
  | [], _ => ([], [])
  | p :: rest, page =>
    if p.length < 100 then (p, [(100, page + 1)])
    else
      let next := collectPages rest (page + 1)
      (p ++ next.1, (100, page + 1) :: next.2)

/-- The pagination loop as entered by `try_fetch_all` (`page` starts at 0 and
is incremented before the first request). -/
def tryFetchAllPages {α : Type} (pages : List (List α)) : List α × List (Nat × Nat) :=
  collectPages pages 0

/-! ## TreeEntry mode codec (`src/repository/tree/mod.rs`) -/

/-- `serialize_mode`: `format!("{mode:06o}")` — the octal rendering of the
mode, left-padded with zeros to six digits. -/
def serializeMode (mode : Nat) : List Char :=
  let s := natToChars 8 mode
  List.replicate (6 - s.length) '0' ++ s

/-- `deserialize_mode`: `u32::from_str_radix(string, 8)`, a failure being a
deserialization error (`none`), never a default. -/
def deserializeMode (s : List Char) : Option Nat :=
  fromStrRadix 8 (2 ^ 32) s

/-! ## Blob base64 codec (`src/repository/blob/mod.rs`)

The source delegates to the `base64` crate's `STANDARD` engine (RFC 4648
alphabet, canonical padding, trailing bits rejected), modelled here; bytes
are `Nat`s below 256. The custom `deserialize` strips every whitespace
character before handing the string to the engine. -/

/-- The RFC 4648 standard alphabet. -/
def b64Table : List Char :=
  ['A','B','C','D','E','F','G','H','I','J','K','L','M','N','O','P','Q','R','S','T','U','V','W','X','Y','Z',
   'a','b','c','d','e','f','g','h','i','j','k','l','m','n','o','p','q','r','s','t','u','v','w','x','y','z',
   '0','1','2','3','4','5','6','7','8','9','+','/']

/-- The alphabet character of a sextet. -/
def b64Char (n : Nat) : Char := b64Table.getD (n % 64) 'A'

/-- The sextet of an alphabet character (`none` for a character outside the
alphabet, including `=`). -/
def b64Val (c : Char) : Option Nat := b64Table.findIdx? (fun x => x == c)

/-- `STANDARD.encode`: three bytes map to four sextet characters, with the
canonical `=` padding of the one- and two-byte tails. -/
def b64EncodeChunks : List Nat → List Char
  | [] => []
  | [a] => [b64Char (a / 4), b64Char (a % 4 * 16), '=', '=']
  | [a, b] => [b64Char (a / 4), b64Char (a % 4 * 16 + b / 16), b64Char (b % 16 * 4), '=']
  | a :: b :: c :: rest =>
    b64Char (a / 4) :: b64Char (a % 4 * 16 + b / 16) ::
      b64Char (b % 16 * 4 + c / 64) :: b64Char (c % 64) :: b64EncodeChunks rest

/-- `STANDARD.decode`: groups of four characters, canonical padding required,
non-zero trailing bits rejected. -/
def b64DecodeRaw : List Char → Option (List Nat)
  | [] => some []
  | c1 :: c2 :: c3 :: c4 :: rest =>
    (match b64Val c1, b64Val c2 with
     | some v1, some v2 =>
       if c3 = '=' then
         if c4 = '=' then
           if rest = [] ∧ v2 % 16 = 0 then some [v1 * 4 + v2 / 16] else none
         else none
       else
         match b64Val c3 with
         | some v3 =>
           if c4 = '=' then
             if rest = [] ∧ v3 % 4 = 0 then
               some [v1 * 4 + v2 / 16, v2 % 16 * 16 + v3 / 4]
             else none
           else
             match b64Val c4 with
             | some v4 =>
               match b64DecodeRaw rest with
               | some tail =>
                 some ((v1 * 4 + v2 / 16) :: (v2 % 16 * 16 + v3 / 4) ::
                   (v3 % 4 * 64 + v4) :: tail)
               | none => none
             | none => none
         | none => none
     | _, _ => none)
  | _ => none

/-- The `serialize` helper of the blob module: base64-encode the bytes. -/
def blobSerialize (bytes : List Nat) : List Char := b64EncodeChunks bytes

/-- The `deserialize` helper of the blob module: drop every whitespace
character of the input, then hand it to the engine. -/
def blobDeserialize (s : List Char) : Option (List Nat) :=
  b64DecodeRaw (s.filter (fun c => !c.isWhitespace))

/-- Whitespace injection: interleave chunks of (whitespace) characters before,
between and after the characters of a string. -/
def interleaveChunks : List (List Char) → List Char → List Char
  | [], s => s
  | w :: ws, [] => w ++ interleaveChunks ws []
  | w :: ws, c :: cs => w ++ c :: interleaveChunks ws cs

/-! ## Issue model and deserialization (`src/models/common/issue/mod.rs`)

The custom `Deserialize` for `Issue` reads a capsule
`{pull_request: Option<CapsulePullRequest>, #[serde(flatten)] issue: IssueContent}`
and classifies on `pull_request.is_some()`. Serde's `Option` deserializer
maps a JSON `null` — and a missing field — to `None`, and only a present,
non-null value reaches `CapsulePullRequest` (an empty braced struct, which
accepts any JSON object). -/

/-- The `User` enum, tagged by `type` with `login`/`id` fields. -/
inductive User where
  | organization (name : String) (number : Nat)
  | mannequin (name : String) (number : Nat)
  | user (name : String) (number : Nat)
  | bot (name : String) (number : Nat)
deriving DecidableEq

/-- `IssueState`. -/
inductive IssueState where
  | closed
  | open
deriving DecidableEq

/-- `IssueContent`. -/
structure IssueContent where
  assignees : Option (List User)
  number : Nat
  author : User
  title : String
  body : String
  state : IssueState
deriving DecidableEq

/-- The `Issue` union: `PullRequest` or `Plain`, both carrying the content. -/
inductive Issue where
  | pullRequest (content : IssueContent)
  | plain (content : IssueContent)
deriving DecidableEq

/-- `Issue::is_pull_request`. -/
def Issue.isPullRequest : Issue → Bool
  | .pullRequest _ => true
  | .plain _ => false

/-- `Issue::is_plain`. -/
def Issue.isPlain : Issue → Bool
  | .pullRequest _ => false
  | .plain _ => true

/-- A JSON number read into an unsigned integer (`usize`/serde): a
non-negative integer. -/
def jsonToNat : Json → Option Nat
  | .num n => if n < 0 then none else some n.toNat
  | _ => none

/-- A JSON string. -/
def jsonToStr : Json → Option String
  | .str s => some s
  | _ => none

/-- The serde-derived deserializer of `User` (internally tagged by `type`,
fields `login` and `id`). -/
def deserializeUser (j : Json) : Option User :=
  match j with
  | .obj fields => do
    let tag ← lookupField fields "type" >>= jsonToStr
    let login ← lookupField fields "login" >>= jsonToStr
    let id ← lookupField fields "id" >>= jsonToNat
    match tag with
    | "Organization" => some (.organization login id)
    | "Mannequin" => some (.mannequin login id)
    | "User" => some (.user login id)
    | "Bot" => some (.bot login id)
    | _ => none
  | _ => none

/-- The serde-derived deserializer of `IssueState` (`"open"` / `"closed"`). -/
def deserializeIssueState (j : Json) : Option IssueState :=
  match j with
  | .str s =>
    match s with
    | "closed" => some .closed
    | "open" => some .open
    | _ => none
  | _ => none

/-- The serde-derived deserializer of `Option<Vec<User>>`: a missing field or
a `null` is `None`, an array is traversed (any bad element fails the whole
deserialization). -/
def deserializeAssignees (field : Option Json) : Option (Option (List User)) :=
  match field with
  | none => some none
  | some .null => some none
  | some (.arr items) => (items.mapM deserializeUser).map some
  | some _ => none

/-- The serde-derived deserializer of `IssueContent` (flattened into the
issue payload: its fields live at the top level; `author` is renamed
`user`). -/
def deserializeIssueContent (fields : List (String × Json)) : Option IssueContent := do
  let assignees ← deserializeAssignees (lookupField fields "assignees")
  let number ← lookupField fields "number" >>= jsonToNat
  let author ← lookupField fields "user" >>= deserializeUser
  let title ← lookupField fields "title" >>= jsonToStr
  let body ← lookupField fields "body" >>= jsonToStr
  let state ← lookupField fields "state" >>= deserializeIssueState
  some { assignees, number, author, title, body, state }

/-- `Option<CapsulePullRequest>` from a present `pull_request` value: `null`
is `None`; a JSON object is `Some` (the capsule has no fields and ignores
unknown keys); anything else fails. -/
def deserializePullRequestField (j : Json) : Option (Option Unit) :=
  match j with
  | .null => some none
  | .obj _ => some (some ())
  | _ => none

/-- The custom `Deserialize` impl of `Issue`: decode the capsule, then
classify on `pull_request.is_some()`. -/
def deserializeIssue (j : Json) : Option Issue :=
  match j with
  | .obj fields => do
    let pr ← match lookupField fields "pull_request" with
      | none => some none
      | some v => deserializePullRequestField v
    let content ← deserializeIssueContent fields
    some (if pr.isSome then Issue.pullRequest content else Issue.plain content)
  | _ => none

/-- The issue handle constructed by `HandleIssue::try_fetch` (the repository
back-pointer and the cyclic weak self-reference carry no data relevant to the
claims). -/
structure HandleIssue where
  number : Nat
deriving DecidableEq

/-- `HandleIssue::try_fetch`: GET `repos/{repo}/issues/{number}` (abstracted
as the transport's result for that number), decode an `Issue`, and reject a
pull request with `IssueError::Issue{number}`. A transport failure propagates
as `Client`; a body that fails to decode is a `Malformed` response error. -/
def tryFetchIssue (server : Nat → Except ClientError Json) (number : Nat) :
    Except IssueError HandleIssue :=
  match server number with
  | .error e => .error (.client e)
  | .ok j =>
    match deserializeIssue j with
    | none => .error (.client (.response (.malformed "body")))
    | some issue =>
      if issue.isPullRequest then .error (.issue number)
      else .ok { number }

/-! ## Absence-as-Option conveniences (`src/repository/mod.rs`,
`src/repository/issue/mod.rs`)

Each wrapper is a match on the result of the underlying fetch; the fetch
itself is abstracted as that result. -/

/-- `HandleRepository::try_get_some_reference`. -/
def tryGetSomeReference (fetched : Except ReferenceError Reference) :
    Except HandleRepositoryError (Option Reference) :=
  match fetched with
  | .error (ReferenceError.nothing _) => .ok none
  | .error e => .error (.reference e)
  | .ok r => .ok (some r)

/-- `HandleRepository::try_has_commit`; only the precise
`Client(Response(Nothing))` shape (the transport 404) maps to `false`. -/
def tryHasCommit {α : Type} (fetched : Except CommitError α) :
    Except HandleRepositoryError Bool :=
  match fetched with
  | .error (CommitError.client (ClientError.response (ClientResponseError.nothing _ _))) =>
    .ok false
  | .error e => .error (.commit e)
  | .ok _ => .ok true

/-- `HandleIssue::try_has_comment`; only the domain
`IssueCommentError::Nothing` maps to `false`. -/
def tryHasComment {α : Type} (fetched : Except IssueCommentError α) :
    Except IssueError Bool :=
  match fetched with
  | .error (IssueCommentError.nothing _) => .ok false
  | .error e => .error (.comment e)
  | .ok _ => .ok true

/-- Does a `ReferenceError` match the `Nothing { .. }` arm? -/
def ReferenceError.isNothing : ReferenceError → Bool
  | .nothing _ => true
  | _ => false

/-- Does a `CommitError` match the `Client(Response(Nothing { .. }))` arm? -/
def CommitError.isTransportNothing : CommitError → Bool
  | .client (.response (.nothing _ _)) => true
  | _ => false

/-- Does an `IssueCommentError` match the `Nothing { .. }` arm? -/
def IssueCommentError.isNothing : IssueCommentError → Bool
  | .nothing _ => true
  | _ => false

/-! ## Property mutation (`GitHubProperties::try_set_properties`,
`HandleReference::try_set_commit`)

`try_set_properties` PATCHes the serialized payload to the handle's endpoint,
discards the response body and returns `self.get_reference()` — the very
handle it was called on. `try_set_commit` PATCHes
`repos/{repo}/git/refs/{self}` with `{sha, force}` and returns unit; it takes
`&self`, so the reference value cannot change. Both are modelled as pure
functions of the handle, the payload and the transport's response, returning
the request that was issued alongside the source's return value. -/

/-- An issued PATCH request: the endpoint and the serialized payload. -/
structure PatchRequest where
  endpoint : List Char
  payload : Json

/-- `GitHubProperties::try_set_properties` over an arbitrary handle type with
its endpoint function: a transport error propagates as `Client`; otherwise
the response body is dropped and the original handle is returned. -/
def trySetProperties {α : Type} (endpointOf : α → List Char) (handle : α)
    (payload : Json) (response : Except ClientError Json) :
    Except HandleRepositoryError (PatchRequest × α) :=
  match response with
  | .error e => .error (.client e)
  | .ok _ => .ok ({ endpoint := endpointOf handle, payload }, handle)

/-- `HandleReference::try_set_commit`: PATCH
`repos/{repo}/git/refs/{self}` with `{sha, force}`; returns `Ok(())`, the
reference (taken by shared borrow) unchanged. -/
def trySetCommit (repoDisplay : List Char) (self : Reference) (force : Bool)
    (sha : String) (response : Except ClientError Json) :
    Except HandleRepositoryError (PatchRequest × Reference) :=
  match response with
  | .error e => .error (.client e)
  | .ok _ =>
    .ok ({ endpoint := "repos/".data ++ repoDisplay ++ "/git/refs/".data ++
             displayReference self,
           payload := .obj [("sha", .str sha), ("force", .bool force)] }, self)

/-! ## Lemmas on the string utilities -/

theorem splitSlash_ne_nil (s : List Char) : splitSlash s ≠ [] := by
  induction s with
  | nil => simp [splitSlash]
  | cons c rest ih =>
    simp only [splitSlash]
    cases h : splitSlash rest with
    | nil => simp
    | cons g gs => by_cases hc : c = '/' <;> simp [hc]

theorem joinSlash_cons_cons (c : Char) (h : List Char) (t : List (List Char)) :
    joinSlash ((c :: h) :: t) = c :: joinSlash (h :: t) := by
  cases t <;> simp [joinSlash]

theorem joinSlash_splitSlash (s : List Char) : joinSlash (splitSlash s) = s := by
  induction s with
  | nil => rfl
  | cons c rest ih =>
    simp only [splitSlash]
    cases h : splitSlash rest with
    | nil => exact absurd h (splitSlash_ne_nil rest)
    | cons g gs =>
      rw [h] at ih
      by_cases hc : c = '/'
      · subst hc
        simpa [joinSlash] using ih
      · simpa [hc, joinSlash_cons_cons] using ih

theorem splitSlash_of_no_slash (s : List Char) (h : '/' ∉ s) : splitSlash s = [s] := by
  induction s with
  | nil => rfl
  | cons c rest ih =>
    have hc : ¬ c = '/' := fun hc => h (hc ▸ List.mem_cons_self c rest)
    have hrest : '/' ∉ rest := fun hm => h (List.mem_cons_of_mem c hm)
    simp [splitSlash, ih hrest, hc]

theorem splitSlash_append_slash (a rest : List Char) (h : '/' ∉ a) :
    splitSlash (a ++ '/' :: rest) = a :: splitSlash rest := by
  induction a with
  | nil =>
    cases h2 : splitSlash rest with
    | nil => exact absurd h2 (splitSlash_ne_nil rest)
    | cons g gs => simp [splitSlash, h2]
  | cons c a2 ih =>
    have hc : ¬ c = '/' := fun hc => h (hc ▸ List.mem_cons_self c a2)
    have ha2 : '/' ∉ a2 := fun hm => h (List.mem_cons_of_mem c hm)
    simp [splitSlash, ih ha2, hc]

/-! ## Lemmas on digits and radix parsing -/

theorem charToDigit_digitChar (d : Nat) (h : d < 10) :
    charToDigit (digitChar d) = some d := by
  interval_cases d <;> decide

theorem digitChar_ne_slash (d : Nat) (h : d < 10) : digitChar d ≠ '/' := by
  interval_cases d <;> decide

theorem digitChar_ne_plus (d : Nat) (h : d < 10) : digitChar d ≠ '+' := by
  interval_cases d <;> decide

theorem digitChar_ne_minus (d : Nat) (h : d < 10) : digitChar d ≠ '-' := by
  interval_cases d <;> decide

theorem toDigitsRevBase_lt (b : Nat) (hb : 0 < b) :
    ∀ (fuel n d : Nat), d ∈ toDigitsRevBase b fuel n → d < b := by
  intro fuel
  induction fuel with
  | zero => intro n d hd; simp [toDigitsRevBase] at hd
  | succ fuel ih =>
    intro n d hd
    by_cases h0 : n = 0
    · simp [toDigitsRevBase, h0] at hd
    · simp only [toDigitsRevBase, if_neg h0, List.mem_cons] at hd
      rcases hd with hd | hd
      · exact hd ▸ Nat.mod_lt n hb
      · exact ih (n / b) d hd

theorem digitsValLE_toDigitsRevBase (b : Nat) (hb : 2 ≤ b) :
    ∀ (fuel n : Nat), n < b ^ fuel →
      digitsValLE b (toDigitsRevBase b fuel n) = n := by
  intro fuel
  induction fuel with
  | zero =>
    intro n hn
    rw [pow_zero] at hn
    have : n = 0 := by omega
    subst this
    rfl
  | succ fuel ih =>
    intro n hn
    by_cases h0 : n = 0
    · simp [toDigitsRevBase, h0, digitsValLE]
    · have hdiv : n / b < b ^ fuel := by
        rw [Nat.div_lt_iff_lt_mul (by omega)]
        calc n < b ^ (fuel + 1) := hn
        _ = b ^ fuel * b := by rw [pow_succ]
      simp only [toDigitsRevBase, if_neg h0, digitsValLE, ih (n / b) hdiv]
      exact Nat.mod_add_div n b

theorem foldl_reverse_digitsValLE (r : Nat) :
    ∀ (l : List Nat) (acc : Nat),
      List.foldl (fun a d => a * r + d) acc l.reverse =
        acc * r ^ l.length + digitsValLE r l := by
  intro l
  induction l with
  | nil => intro acc; simp [digitsValLE]
  | cons d ds ih =>
    intro acc
    simp only [List.reverse_cons, List.foldl_append, List.foldl_cons, List.foldl_nil,
      ih, digitsValLE, List.length_cons, pow_succ]
    ring

theorem le_foldl_digits (r : Nat) (hr : 1 ≤ r) :
    ∀ (l : List Nat) (acc : Nat), acc ≤ List.foldl (fun a d => a * r + d) acc l := by
  intro l
  induction l with
  | nil => intro acc; simp
  | cons d ds ih =>
    intro acc
    calc acc ≤ acc * r + d := by nlinarith
    _ ≤ List.foldl (fun a d => a * r + d) (acc * r + d) ds := ih (acc * r + d)
    _ = List.foldl (fun a d => a * r + d) acc (d :: ds) := by simp

theorem parseDigitsGo_map_digitChar (radix bound : Nat) (hr : 2 ≤ radix)
    (hr10 : radix ≤ 10) :
    ∀ (l : List Nat) (acc : Nat), (∀ d ∈ l, d < radix) →
      List.foldl (fun a d => a * radix + d) acc l < bound →
      parseDigitsGo radix bound (l.map digitChar) acc =
        some (List.foldl (fun a d => a * radix + d) acc l) := by
  intro l
  induction l with
  | nil => intro acc _ _; rfl
  | cons d ds ih =>
    intro acc hd hb
    have hdr : d < radix := hd d (List.mem_cons_self d ds)
    have hd10 : d < 10 := lt_of_lt_of_le hdr hr10
    have hb2 : List.foldl (fun a d => a * radix + d) (acc * radix + d) ds < bound := by
      simpa using hb
    have hstep : acc * radix + d < bound :=
      lt_of_le_of_lt (le_foldl_digits radix (by omega) ds (acc * radix + d)) hb2
    simp only [List.map_cons, parseDigitsGo, charToDigit_digitChar d hd10,
      if_pos hdr, if_pos hstep, List.foldl_cons]
    exact ih (acc * radix + d) (fun x hx => hd x (List.mem_cons_of_mem d hx)) hb2

theorem fromStrRadix_natToChars (radix bound n : Nat) (hr : 2 ≤ radix)
    (hr10 : radix ≤ 10) (hn : n < bound) :
    fromStrRadix radix bound (natToChars radix n) = some n := by
  by_cases h0 : n = 0
  · subst h0
    have hb0 : 0 < bound := hn
    have h1 : natToChars radix 0 = ['0'] := by simp [natToChars]
    rw [h1]
    have h2 : charToDigit '0' = some 0 := by decide
    simp [fromStrRadix, parseDigitsGo, h2, hb0, show (0 : Nat) < radix from by omega]
  · have hne : (toDigitsRevBase radix (n + 1) n).reverse.map digitChar ≠ [] := by
      simp only [toDigitsRevBase, if_neg h0]
      simp
    obtain ⟨c, cs, hcons⟩ := List.exists_cons_of_ne_nil hne
    have hmemd : ∀ d ∈ toDigitsRevBase radix (n + 1) n, d < radix :=
      fun d hd => toDigitsRevBase_lt radix (by omega) (n + 1) n d hd
    have hnpow : n < radix ^ (n + 1) := by
      calc n < 2 ^ n := Nat.lt_two_pow n
      _ ≤ radix ^ n := Nat.pow_le_pow_left hr n
      _ ≤ radix ^ (n + 1) := Nat.pow_le_pow_right (by omega) (Nat.le_succ n)
    have hfold : List.foldl (fun a d => a * radix + d) 0
        ((toDigitsRevBase radix (n + 1) n).reverse) = n := by
      rw [foldl_reverse_digitsValLE, digitsValLE_toDigitsRevBase radix hr (n + 1) n hnpow]
      simp
    have hgo : parseDigitsGo radix bound
        (((toDigitsRevBase radix (n + 1) n).reverse).map digitChar) 0 = some n := by
      rw [parseDigitsGo_map_digitChar radix bound hr hr10 _ 0
        (fun d hd => hmemd d (List.mem_reverse.mp hd)) (by rw [hfold]; exact hn), hfold]
    obtain ⟨d, hdmem, hdchar⟩ : ∃ d, d ∈ toDigitsRevBase radix (n + 1) n ∧ c = digitChar d := by
      have : c ∈ (toDigitsRevBase radix (n + 1) n).reverse.map digitChar := by
        rw [hcons]; exact List.mem_cons_self c cs
      obtain ⟨d, hd, hdc⟩ := List.mem_map.mp this
      exact ⟨d, List.mem_reverse.mp hd, hdc.symm⟩
    have hd10 : d < 10 := lt_of_lt_of_le (hmemd d hdmem) hr10
    simp only [natToChars, if_neg h0]
    rw [hcons, fromStrRadix]
    rw [if_neg (hdchar ▸ digitChar_ne_plus d hd10),
      if_neg (hdchar ▸ digitChar_ne_minus d hd10)]
    rw [← hcons]
    exact hgo

theorem parseDigitsGo_some_lt (radix bound : Nat) :
    ∀ (l : List Char) (acc v : Nat),
      parseDigitsGo radix bound l acc = some v → v < bound ∨ v = acc := by
  intro l
  induction l with
  | nil =>
    intro acc v h
    simp only [parseDigitsGo, Option.some.injEq] at h
    exact Or.inr h.symm
  | cons c cs ih =>
    intro acc v h
    rw [parseDigitsGo] at h
    rcases hc : charToDigit c with _ | d
    · rw [hc] at h; simp at h
    · rw [hc] at h
      dsimp only at h
      split_ifs at h with hdr hstep
      rcases ih _ v h with h2 | h2
      · exact Or.inl h2
      · exact Or.inl (h2 ▸ hstep)

theorem fromStrRadix_lt_bound (radix bound : Nat) (hb : 0 < bound) :
    ∀ (s : List Char) (v : Nat), fromStrRadix radix bound s = some v → v < bound := by
  intro s v h
  match s with
  | [] => simp [fromStrRadix] at h
  | c :: rest =>
    rw [fromStrRadix] at h
    by_cases h1 : c = '+'
    · rw [if_pos h1] at h
      by_cases h2 : rest = []
      · rw [if_pos h2] at h; simp at h
      · rw [if_neg h2] at h
        rcases parseDigitsGo_some_lt radix bound rest 0 v h with h5 | h5
        · exact h5
        · omega
    · rw [if_neg h1] at h
      by_cases h3 : c = '-'
      · rw [if_pos h3] at h
        by_cases h4 : rest = []
        · rw [if_pos h4] at h; simp at h
        · rw [if_neg h4] at h
          rcases hp : parseDigitsGo radix bound rest 0 with _ | n
          · rw [hp] at h; simp at h
          · rw [hp] at h
            rcases n with _ | m <;> simp at h
            omega
      · rw [if_neg h3] at h
        rcases parseDigitsGo_some_lt radix bound (c :: rest) 0 v h with h5 | h5
        · exact h5
        · omega

theorem parseUsize_lt (s : List Char) (n : Nat) (h : parseUsize s = some n) :
    n < 2 ^ 64 :=
  fromStrRadix_lt_bound 10 (2 ^ 64) (by norm_num) s n h

theorem slash_not_mem_natToChars (bse n : Nat) (hb2 : 2 ≤ bse) (hb : bse ≤ 10) :
    '/' ∉ natToChars bse n := by
  unfold natToChars
  split
  · simp
  · intro hmem
    obtain ⟨d, hd, hdc⟩ := List.mem_map.mp hmem
    have hdlt : d < bse :=
      toDigitsRevBase_lt bse (by omega) (n + 1) n d (List.mem_reverse.mp hd)
    exact digitChar_ne_slash d (by omega) hdc

/-! ## Reduction lemmas for `tryParseReference` -/

theorem tryParse_reduce_pull (raw : List Char) (rest : List (List Char))
    (hs : splitSlash raw = "pull".data :: rest) :
    tryParseReference raw = parsePullTokens raw rest := by
  unfold tryParseReference
  rw [hs]
  exact rfl

theorem tryParse_reduce_refs_pull (raw : List Char) (rest : List (List Char))
    (hs : splitSlash raw = "refs".data :: "pull".data :: rest) :
    tryParseReference raw = parsePullTokens raw rest := by
  unfold tryParseReference
  rw [hs]
  exact rfl

theorem tryParse_reduce_heads (raw : List Char) (rest : List (List Char))
    (hs : splitSlash raw = "heads".data :: rest) :
    tryParseReference raw = parseHeadsTokens rest := by
  unfold tryParseReference
  rw [hs]
  exact rfl

theorem tryParse_reduce_refs_heads (raw : List Char) (rest : List (List Char))
    (hs : splitSlash raw = "refs".data :: "heads".data :: rest) :
    tryParseReference raw = parseHeadsTokens rest := by
  unfold tryParseReference
  rw [hs]
  exact rfl

theorem tryParse_reduce_tags (raw : List Char) (rest : List (List Char))
    (hs : splitSlash raw = "tags".data :: rest) :
    tryParseReference raw = parseTagsTokens rest := by
  unfold tryParseReference
  rw [hs]
  exact rfl

theorem tryParse_reduce_refs_tags (raw : List Char) (rest : List (List Char))
    (hs : splitSlash raw = "refs".data :: "tags".data :: rest) :
    tryParseReference raw = parseTagsTokens rest := by
  unfold tryParseReference
  rw [hs]
  exact rfl

theorem parseHeadsTokens_splitSlash (b : List Char) :
    parseHeadsTokens (splitSlash b) = .ok (.branch b) := by
  rcases h2 : splitSlash b with _ | ⟨x, xs⟩
  · exact absurd h2 (splitSlash_ne_nil b)
  · have hjoin : joinSlash (x :: xs) = b := by
      rw [← h2]; exact joinSlash_splitSlash b
    rcases xs with _ | ⟨y, ys⟩
    · have hx : x = b := by simpa [joinSlash] using hjoin
      simp [parseHeadsTokens, hx]
    · simp [parseHeadsTokens, hjoin]

theorem parseTagsTokens_splitSlash (b : List Char) :
    parseTagsTokens (splitSlash b) = .ok (.tag b) := by
  rcases h2 : splitSlash b with _ | ⟨x, xs⟩
  · exact absurd h2 (splitSlash_ne_nil b)
  · have hjoin : joinSlash (x :: xs) = b := by
      rw [← h2]; exact joinSlash_splitSlash b
    rcases xs with _ | ⟨y, ys⟩
    · have hx : x = b := by simpa [joinSlash] using hjoin
      simp [parseTagsTokens, hx]
    · simp [parseTagsTokens, hjoin]

theorem parsePullTokens_splitSlash (raw : List Char) (i : Nat) (b : List Char)
    (hi : i < 2 ^ 64) :
    parsePullTokens raw (natToChars 10 i :: splitSlash b) = .ok (.pullRequest i b) := by
  have hp : parseUsize (natToChars 10 i) = some i :=
    fromStrRadix_natToChars 10 (2 ^ 64) i (by norm_num) (by norm_num) hi
  rcases h2 : splitSlash b with _ | ⟨x, xs⟩
  · exact absurd h2 (splitSlash_ne_nil b)
  · have hjoin : joinSlash (x :: xs) = b := by
      rw [← h2]; exact joinSlash_splitSlash b
    rcases xs with _ | ⟨y, ys⟩
    · have hx : x = b := by simpa [joinSlash] using hjoin
      simp [parsePullTokens, hp, hx]
    · simp [parsePullTokens, hp, hjoin]

theorem tryParse_heads_append (b : List Char) :
    tryParseReference ("heads".data ++ '/' :: b) = .ok (.branch b) := by
  rw [tryParse_reduce_heads _ _ (splitSlash_append_slash _ _ (by decide))]
  exact parseHeadsTokens_splitSlash b

theorem tryParse_refs_heads_append (b : List Char) :
    tryParseReference ("refs/heads".data ++ '/' :: b) = .ok (.branch b) := by
  have heq : ("refs/heads".data ++ '/' :: b) =
      "refs".data ++ '/' :: ("heads".data ++ '/' :: b) := rfl
  have hs : splitSlash ("refs/heads".data ++ '/' :: b) =
      "refs".data :: "heads".data :: splitSlash b := by
    rw [heq, splitSlash_append_slash _ _ (by decide),
      splitSlash_append_slash _ _ (by decide)]
  rw [tryParse_reduce_refs_heads _ _ hs]
  exact parseHeadsTokens_splitSlash b

theorem tryParse_tags_append (b : List Char) :
    tryParseReference ("tags".data ++ '/' :: b) = .ok (.tag b) := by
  rw [tryParse_reduce_tags _ _ (splitSlash_append_slash _ _ (by decide))]
  exact parseTagsTokens_splitSlash b

theorem tryParse_refs_tags_append (b : List Char) :
    tryParseReference ("refs/tags".data ++ '/' :: b) = .ok (.tag b) := by
  have heq : ("refs/tags".data ++ '/' :: b) =
      "refs".data ++ '/' :: ("tags".data ++ '/' :: b) := rfl
  have hs : splitSlash ("refs/tags".data ++ '/' :: b) =
      "refs".data :: "tags".data :: splitSlash b := by
    rw [heq, splitSlash_append_slash _ _ (by decide),
      splitSlash_append_slash _ _ (by decide)]
  rw [tryParse_reduce_refs_tags _ _ hs]
  exact parseTagsTokens_splitSlash b

theorem tryParse_pull_append (i : Nat) (b : List Char) (hi : i < 2 ^ 64) :
    tryParseReference ("pull".data ++ '/' :: (natToChars 10 i ++ '/' :: b)) =
      .ok (.pullRequest i b) := by
  have hs : splitSlash ("pull".data ++ '/' :: (natToChars 10 i ++ '/' :: b)) =
      "pull".data :: natToChars 10 i :: splitSlash b := by
    rw [splitSlash_append_slash _ _ (by decide),
      splitSlash_append_slash _ _ (slash_not_mem_natToChars 10 i (by norm_num) (by norm_num))]
  rw [tryParse_reduce_pull _ _ hs]
  exact parsePullTokens_splitSlash _ i b hi

theorem parseHeadsTokens_shape (rest : List (List Char)) :
    ∃ nm, parseHeadsTokens rest = .ok (.branch nm) := by
  rcases rest with _ | ⟨x, _ | ⟨y, ys⟩⟩ <;> exact ⟨_, rfl⟩

theorem parseTagsTokens_shape (rest : List (List Char)) :
    ∃ nm, parseTagsTokens rest = .ok (.tag nm) := by
  rcases rest with _ | ⟨x, _ | ⟨y, ys⟩⟩ <;> exact ⟨_, rfl⟩

theorem parsePullTokens_ok_lt (raw : List Char) (rest : List (List Char))
    (i : Nat) (b : List Char)
    (h : parsePullTokens raw rest = .ok (.pullRequest i b)) : i < 2 ^ 64 := by
  rcases rest with _ | ⟨issue, _ | ⟨b2, bs⟩⟩
  · simp [parsePullTokens] at h
  · rcases hp : parseUsize issue with _ | n <;>
      simp [parsePullTokens, hp] at h
    exact h.1 ▸ parseUsize_lt issue n hp
  · rcases bs with _ | ⟨b3, bs2⟩ <;>
      rcases hp : parseUsize issue with _ | n <;>
      simp [parsePullTokens, hp] at h
    · exact h.1 ▸ parseUsize_lt issue n hp
    · exact h.1 ▸ parseUsize_lt issue n hp

theorem tryParseReference_ok_pull_lt (raw : List Char) (i : Nat) (b : List Char)
    (h : tryParseReference raw = .ok (.pullRequest i b)) : i < 2 ^ 64 := by
  unfold tryParseReference at h
  rcases hsp : splitSlash raw with _ | ⟨tok, rest⟩ <;> rw [hsp] at h
  · simp at h
  · dsimp only at h
    by_cases h1 : tok = "refs".data
    · rw [if_pos h1] at h
      rcases rest with _ | ⟨tok2, rest2⟩
      · simp at h
      · dsimp only at h
        by_cases h2 : tok2 = "pull".data
        · rw [if_pos h2] at h
          exact parsePullTokens_ok_lt _ _ i b h
        · rw [if_neg h2] at h
          by_cases h3 : tok2 = "heads".data
          · rw [if_pos h3] at h
            obtain ⟨nm, hnm⟩ := parseHeadsTokens_shape rest2
            rw [hnm] at h
            simp at h
          · rw [if_neg h3] at h
            by_cases h4 : tok2 = "tags".data
            · rw [if_pos h4] at h
              obtain ⟨nm, hnm⟩ := parseTagsTokens_shape rest2
              rw [hnm] at h
              simp at h
            · rw [if_neg h4] at h
              simp at h
    · rw [if_neg h1] at h
      by_cases h2 : tok = "pull".data
      · rw [if_pos h2] at h
        exact parsePullTokens_ok_lt _ _ i b h
      · rw [if_neg h2] at h
        by_cases h3 : tok = "heads".data
        · rw [if_pos h3] at h
          obtain ⟨nm, hnm⟩ := parseHeadsTokens_shape rest
          rw [hnm] at h
          simp at h
        · rw [if_neg h3] at h
          by_cases h4 : tok = "tags".data
          · rw [if_pos h4] at h
            obtain ⟨nm, hnm⟩ := parseTagsTokens_shape rest
            rw [hnm] at h
            simp at h
          · rw [if_neg h4] at h
            simp at h

/-! ## Claim C4 and C10: parsing forms and the display round-trip -/

/-- C4: `try_parse` maps `refs/heads/main` and `heads/main` to
`Branch{"main"}`, `refs/tags/x` and `tags/x` to `Tag{"x"}`, `refs/pull/42/merge`
and `pull/42/merge` to `PullRequest{42, "merge"}`; multi-segment names after
the kind are rejoined with `/` (stated for every suffix `b`); a non-numeric
issue segment and an unrecognized first kind segment fail with
`Invalid` carrying the input. -/
theorem reference_parse_forms :
    (tryParseReference "refs/heads/main".data = .ok (.branch "main".data)
      ∧ tryParseReference "heads/main".data = .ok (.branch "main".data))
    ∧ (tryParseReference "refs/tags/x".data = .ok (.tag "x".data)
      ∧ tryParseReference "tags/x".data = .ok (.tag "x".data))
    ∧ (tryParseReference "refs/pull/42/merge".data = .ok (.pullRequest 42 "merge".data)
      ∧ tryParseReference "pull/42/merge".data = .ok (.pullRequest 42 "merge".data))
    ∧ (∀ b : List Char,
        tryParseReference ("heads".data ++ '/' :: b) = .ok (.branch b)
        ∧ tryParseReference ("refs/heads".data ++ '/' :: b) = .ok (.branch b)
        ∧ tryParseReference ("tags".data ++ '/' :: b) = .ok (.tag b)
        ∧ tryParseReference ("refs/tags".data ++ '/' :: b) = .ok (.tag b))
    ∧ tryParseReference "refs/pull/abc/merge".data =
        .error (.invalid "refs/pull/abc/merge".data)
    ∧ tryParseReference "pull/abc/merge".data =
        .error (.invalid "pull/abc/merge".data)
    ∧ tryParseReference "not/a/valid/ref/kind".data =
        .error (.invalid "not/a/valid/ref/kind".data) := by
  refine ⟨⟨rfl, rfl⟩, ⟨rfl, rfl⟩, ⟨rfl, rfl⟩, ?_, rfl, rfl, rfl⟩
  intro b
  exact ⟨tryParse_heads_append b, tryParse_refs_heads_append b,
    tryParse_tags_append b, tryParse_refs_tags_append b⟩

/-- C10: every reference produced by a successful `try_parse` displays in the
short canonical form (never prefixed with `refs/`), and re-parsing the
displayed form yields the same variant with the same fields. -/
theorem reference_display_parse_roundtrip (raw : List Char) (r : Reference)
    (h : tryParseReference raw = .ok r) :
    List.isPrefixOf "refs/".data (displayReference r) = false
    ∧ tryParseReference (displayReference r) = .ok r := by
  rcases r with ⟨i, b⟩ | b | t
  · have hi : i < 2 ^ 64 := tryParseReference_ok_pull_lt raw i b h
    refine ⟨rfl, ?_⟩
    have heq : displayReference (.pullRequest i b) =
        "pull".data ++ '/' :: (natToChars 10 i ++ '/' :: b) := by
      simp [displayReference]
    rw [heq]
    exact tryParse_pull_append i b hi
  · exact ⟨rfl, tryParse_heads_append b⟩
  · exact ⟨rfl, tryParse_tags_append t⟩

/-- Witness for C10 at the concrete input `heads/main`. -/
theorem reference_display_parse_roundtrip_witness :
    List.isPrefixOf "refs/".data (displayReference (Reference.branch "main".data)) = false
    ∧ tryParseReference (displayReference (Reference.branch "main".data)) =
        .ok (.branch "main".data) :=
  reference_display_parse_roundtrip "heads/main".data (Reference.branch "main".data) rfl

/-! ## Claim C2: suffix validation in `try_fetch` -/

/-- C2: for a raw reference string that parses, `try_fetch` succeeds with the
parsed reference exactly when the server's `ref` name ends with the raw
string; a name that does not end with it, or a transport 404, yields
`Nothing` carrying the raw string. -/
theorem reference_fetch_suffix_validation (raw : List Char) (parsed : Reference)
    (name : List Char) (code : Nat) (msg : Option String)
    (h : tryParseReference raw = .ok parsed) :
    (tryFetchReference raw (.ok name) = .ok parsed ↔ List.isSuffixOf raw name = true)
    ∧ (List.isSuffixOf raw name = false →
        tryFetchReference raw (.ok name) = .error (.nothing raw))
    ∧ tryFetchReference raw (.error (.response (.nothing code msg))) =
        .error (.nothing raw) := by
  have hok : ∀ nm : List Char, tryFetchReference raw (.ok nm) =
      if List.isSuffixOf raw nm then .ok parsed else .error (.nothing raw) := by
    intro nm
    unfold tryFetchReference
    rw [h]
  have herr : tryFetchReference raw (.error (.response (.nothing code msg))) =
      .error (.nothing raw) := by
    unfold tryFetchReference
    rw [h]
  refine ⟨?_, ?_, herr⟩
  · rw [hok]
    by_cases hsuf : List.isSuffixOf raw name = true <;> simp [hsuf]
  · intro hf
    rw [hok, if_neg (by simp [hf])]

/-- Witness for C2: fetching `heads/foo` against a server answering
`refs/heads/foobar` fails with `Nothing`, and against `refs/heads/foo`
succeeds. -/
theorem reference_fetch_suffix_validation_witness :
    tryFetchReference "heads/foo".data (.ok "refs/heads/foobar".data) =
        .error (.nothing "heads/foo".data)
    ∧ tryFetchReference "heads/foo".data (.ok "refs/heads/foo".data) =
        .ok (.branch "foo".data) :=
  ⟨(reference_fetch_suffix_validation "heads/foo".data (.branch "foo".data)
      "refs/heads/foobar".data 404 none rfl).2.1 rfl,
    ((reference_fetch_suffix_validation "heads/foo".data (.branch "foo".data)
      "refs/heads/foo".data 404 none rfl).1).mpr rfl⟩

/-! ## Claim C3: tag-chain resolution terminates and detects cycles -/

theorem length_filter_le_of_imp {α : Type} (p q : α → Bool)
    (h : ∀ a, q a = true → p a = true) :
    ∀ l : List α, (l.filter q).length ≤ (l.filter p).length := by
  intro l
  induction l with
  | nil => simp
  | cons x xs ih =>
    by_cases hq : q x = true
    · have hp := h x hq
      simp only [List.filter_cons, hq, hp, if_true, List.length_cons]
      omega
    · by_cases hp : p x = true <;>
        simp only [List.filter_cons, hq, hp, Bool.false_eq_true, if_true, if_false,
          ite_false, ite_true, List.length_cons] <;>
        omega

theorem length_filter_lt_of_mem {α : Type} (p q : α → Bool)
    (h : ∀ a, q a = true → p a = true) (a : α) :
    ∀ l : List α, a ∈ l → q a = false → p a = true →
      (l.filter q).length < (l.filter p).length := by
  intro l
  induction l with
  | nil => intro h1; simp at h1
  | cons x xs ih =>
    intro hmem hqa hpa
    rcases List.mem_cons.mp hmem with rfl | hmem2
    · have hle := length_filter_le_of_imp p q h xs
      simp only [List.filter_cons, hqa, hpa, Bool.false_eq_true, if_true, ite_false,
        List.length_cons]
      omega
    · have hlt := ih hmem2 hqa hpa
      by_cases hq : q x = true
      · have hp := h x hq
        simp only [List.filter_cons, hq, hp, if_true, List.length_cons]
        omega
      · by_cases hp : p x = true <;>
          simp only [List.filter_cons, hq, hp, Bool.false_eq_true, if_true, if_false,
            ite_false, ite_true, List.length_cons] <;>
          omega

theorem lookupTag_mem_keys (env : List (String × RefObjectTarget)) (sha : String)
    (next : RefObjectTarget) (h : lookupTag env sha = some next) :
    sha ∈ env.map Prod.fst := by
  unfold lookupTag at h
  rcases hfind : env.find? (fun p => p.1 == sha) with _ | p <;> rw [hfind] at h
  · simp at h
  · have hmem := List.mem_of_find?_eq_some hfind
    have hpred := List.find?_some hfind
    simp only at hpred
    exact List.mem_map.mpr ⟨p, hmem, eq_of_beq hpred⟩

theorem resolveTargetLoop_no_fuelExhausted (env : List (String × RefObjectTarget))
    (selfRef : List Char) :
    ∀ (fuel : Nat) (visited : List String) (target : RefObjectTarget),
      ((env.map Prod.fst).filter (fun k => decide (k ∉ visited))).length < fuel →
      (resolveTargetLoop env selfRef fuel target visited).isFuelExhausted = false := by
  intro fuel
  induction fuel with
  | zero => intro visited target hlt; exact absurd hlt (by omega)
  | succ fuel ih =>
    intro visited target hlt
    match target with
    | .commit sha => rfl
    | .tag sha =>
      rw [resolveTargetLoop]
      by_cases hv : sha ∈ visited
      · rw [if_pos hv]; rfl
      · rw [if_neg hv]
        rcases hl : lookupTag env sha with _ | next
        · rfl
        · have hmem : sha ∈ env.map Prod.fst := lookupTag_mem_keys env sha next hl
          have himp : ∀ k : String, decide (k ∉ sha :: visited) = true →
              decide (k ∉ visited) = true := by
            intro k hk
            simp only [decide_eq_true_iff, List.mem_cons, not_or] at hk ⊢
            exact hk.2
          have hqa : decide (sha ∉ sha :: visited) = false := by simp
          have hpa : decide (sha ∉ visited) = true := by simp [hv]
          have hlt2 := length_filter_lt_of_mem
            (fun k => decide (k ∉ visited)) (fun k => decide (k ∉ sha :: visited))
            himp sha (env.map Prod.fst) hmem hqa hpa
          exact ih (sha :: visited) next (by omega)

theorem tryGetCommitSha_no_fuelExhausted (env : List (String × RefObjectTarget))
    (selfRef : List Char) (start : RefObjectTarget) :
    (tryGetCommitSha env selfRef start).isFuelExhausted = false := by
  apply resolveTargetLoop_no_fuelExhausted
  have hkeep :
      ((env.map Prod.fst).filter (fun k => decide (k ∉ ([] : List String)))).length
        = env.length := by
    simp
  omega

/-- C3: the tag-resolution loop of `try_get_commit` never exhausts the
`env.length + 1` fuel bound (it terminates within one lookup per stored tag
object); a chain that revisits a tag SHA (A→B→A) fails with `Circular`
wrapped as `HandleRepositoryError::Reference` instead of looping or
returning a commit; a chain ending in a `commit`-tagged object (here
A→B→commit C, and in general any directly `commit`-tagged target) returns
that commit's SHA. -/
theorem tag_chain_cycle_detection :
    (∀ (env : List (String × RefObjectTarget)) (selfRef : List Char)
        (start : RefObjectTarget),
        (tryGetCommitSha env selfRef start).isFuelExhausted = false)
    ∧ tryGetCommitSha [("A", .tag "B"), ("B", .tag "A")] "tags/v1".data (.tag "A") =
        .repoError (.reference (.circular "tags/v1".data))
    ∧ tryGetCommitSha [("A", .tag "B"), ("B", .commit "C")] "tags/v1".data (.tag "A") =
        .ok "C"
    ∧ (∀ (env : List (String × RefObjectTarget)) (selfRef : List Char) (sha : String),
        tryGetCommitSha env selfRef (.commit sha) = .ok sha) := by
  refine ⟨tryGetCommitSha_no_fuelExhausted, by decide, by decide, ?_⟩
  intro env selfRef sha
  rfl

/-! ## Claim C5: pagination termination -/

theorem collectPages_spec {α : Type} :
    ∀ (pages : List (List α)) (page : Nat),
      (∀ p ∈ pages.dropLast, p.length = 100) →
      (∀ l, pages.getLast? = some l → l.length < 100) →
      collectPages pages page =
        (pages.flatten, (List.range pages.length).map (fun i => (100, page + i + 1))) := by
  intro pages
  induction pages with
  | nil => intro page _ _; simp [collectPages]
  | cons p rest ih =>
    intro page hfull hlast
    rcases rest with _ | ⟨q, rest2⟩
    · have hp : p.length < 100 := hlast p rfl
      simp [collectPages, hp, List.range_succ]
    · have hp : p.length = 100 := hfull p (by simp)
      have hfull2 : ∀ r ∈ (q :: rest2).dropLast, r.length = 100 := by
        intro r hr
        exact hfull r (by simpa [List.dropLast] using Or.inr hr)
      have hlast2 : ∀ l, (q :: rest2).getLast? = some l → l.length < 100 := by
        intro l hl
        exact hlast l (by rwa [List.getLast?_cons_cons])
      have ihh := ih (page + 1) hfull2 hlast2
      have hnot : ¬ p.length < 100 := by omega
      rw [collectPages, if_neg hnot]
      dsimp only
      rw [ihh]
      dsimp only
      refine congrArg₂ Prod.mk List.flatten_cons.symm ?_
      conv_rhs => rw [List.length_cons, List.range_succ_eq_map, List.map_cons,
        List.map_map]
      refine congrArg₂ List.cons rfl ?_
      refine List.map_congr_left ?_
      intro i _
      simp only [Function.comp_apply, Prod.mk.injEq, true_and]
      omega

/-- C5: the pagination loop requests `per_page=100` pages starting at
`page=1`, appends each page and stops exactly when a page has fewer than 100
items: for a remote serving `pages` whose non-final pages are full and whose
final page is short, it issues one request per page (numbered 1, 2, ...) and
returns the concatenation; consequently pages of sizes [100,100,37] take
exactly 3 requests returning 237 items, [100,100,100,0] takes 4 requests,
and [0] takes 1 request returning 0 items (witness). -/
theorem pagination_termination {α : Type} (pages : List (List α))
    (hfull : ∀ p ∈ pages.dropLast, p.length = 100)
    (hlast : ∀ l, pages.getLast? = some l → l.length < 100) :
    tryFetchAllPages pages =
      (pages.flatten, (List.range pages.length).map (fun i => (100, i + 1))) := by
  unfold tryFetchAllPages
  rw [collectPages_spec pages 0 hfull hlast]
  simp

set_option maxRecDepth 4000 in
/-- Witness for C5: the three concrete scenarios of the claim. -/
theorem pagination_termination_witness :
    ((tryFetchAllPages [List.replicate 100 0, List.replicate 100 0,
        List.replicate 37 0]).2 = [(100, 1), (100, 2), (100, 3)]
      ∧ (tryFetchAllPages [List.replicate 100 0, List.replicate 100 0,
        List.replicate 37 0]).1.length = 237)
    ∧ (tryFetchAllPages [List.replicate 100 0, List.replicate 100 0,
        List.replicate 100 0, ([] : List Nat)]).2 =
        [(100, 1), (100, 2), (100, 3), (100, 4)]
    ∧ ((tryFetchAllPages [([] : List Nat)]).2 = [(100, 1)]
      ∧ (tryFetchAllPages [([] : List Nat)]).1.length = 0) := by
  have h1 := pagination_termination
    [List.replicate 100 (0 : Nat), List.replicate 100 0, List.replicate 37 0]
    (by intro p hp; simp [List.dropLast] at hp; rcases hp with rfl | rfl <;> simp)
    (by intro l hl; simp at hl; subst hl; simp)
  have h2 := pagination_termination
    [List.replicate 100 (0 : Nat), List.replicate 100 0, List.replicate 100 0, []]
    (by intro p hp; simp [List.dropLast] at hp
        rcases hp with rfl | rfl | rfl <;> simp)
    (by intro l hl; simp at hl; subst hl; simp)
  have h3 := pagination_termination [([] : List Nat)]
    (by intro p hp; simp [List.dropLast] at hp)
    (by intro l hl; simp at hl; subst hl; simp)
  refine ⟨⟨?_, ?_⟩, ?_, ?_, ?_⟩
  · rw [h1]; decide
  · rw [h1]; decide
  · rw [h2]; decide
  · rw [h3]; decide
  · rw [h3]; decide

/-! ## Claim C6: TreeEntry mode octal round-trip -/

/-- C6: each git tree mode in {100644, 100755, 040000, 160000, 120000}
(octal) survives `serialize_mode` followed by `deserialize_mode` exactly, and
strings that are not valid octal are a deserialization error (`none`), never
a default 0. -/
theorem tree_mode_octal_roundtrip :
    (∀ m ∈ [0o100644, 0o100755, 0o040000, 0o160000, 0o120000],
      deserializeMode (serializeMode m) = some m)
    ∧ deserializeMode "10064x".data = none
    ∧ deserializeMode "98".data = none
    ∧ deserializeMode "".data = none
    ∧ deserializeMode "mode".data = none := by
  decide

/-! ## Claim C7: blob base64 round-trip with whitespace tolerance -/

theorem b64Table_val_getD : ∀ i : Fin 64, b64Val (b64Table.getD i.val 'A') = some i.val := by
  decide

theorem b64Table_getD_props : ∀ i : Fin 64,
    (b64Table.getD i.val 'A').isWhitespace = false
      ∧ b64Table.getD i.val 'A' ≠ '=' := by
  decide

theorem b64Val_b64Char (n : Nat) (h : n < 64) : b64Val (b64Char n) = some n := by
  have h2 : n % 64 = n := Nat.mod_eq_of_lt h
  have h3 := b64Table_val_getD ⟨n, h⟩
  simpa [b64Char, h2] using h3

theorem b64Char_not_ws (n : Nat) : (b64Char n).isWhitespace = false := by
  have h3 := (b64Table_getD_props ⟨n % 64, Nat.mod_lt n (by omega)⟩).1
  simpa [b64Char] using h3

theorem b64Char_ne_pad (n : Nat) : b64Char n ≠ '=' := by
  have h3 := (b64Table_getD_props ⟨n % 64, Nat.mod_lt n (by omega)⟩).2
  simpa [b64Char] using h3

theorem b64EncodeChunks_not_ws : ∀ (l : List Nat),
    ∀ c ∈ b64EncodeChunks l, c.isWhitespace = false
  | [], _, hc => by simp [b64EncodeChunks] at hc
  | [a], c, hc => by
    simp only [b64EncodeChunks, List.mem_cons, List.not_mem_nil, or_false] at hc
    rcases hc with rfl | rfl | rfl | rfl <;> first | exact b64Char_not_ws _ | decide
  | [a, b], c, hc => by
    simp only [b64EncodeChunks, List.mem_cons, List.not_mem_nil, or_false] at hc
    rcases hc with rfl | rfl | rfl | rfl <;> first | exact b64Char_not_ws _ | decide
  | a :: b :: cc :: rest, c, hc => by
    simp only [b64EncodeChunks, List.mem_cons] at hc
    rcases hc with rfl | rfl | rfl | rfl | hc
    · exact b64Char_not_ws _
    · exact b64Char_not_ws _
    · exact b64Char_not_ws _
    · exact b64Char_not_ws _
    · exact b64EncodeChunks_not_ws rest c hc

theorem b64DecodeRaw_encodeChunks : ∀ (l : List Nat), (∀ x ∈ l, x < 256) →
    b64DecodeRaw (b64EncodeChunks l) = some l
  | [], _ => rfl
  | [a], h => by
    have ha : a < 256 := h a (by simp)
    have h1 : a / 4 < 64 := by omega
    have h2 : a % 4 * 16 < 64 := by omega
    have e1 : a % 4 * 16 % 16 = 0 := by omega
    simp [b64EncodeChunks, b64DecodeRaw, b64Val_b64Char _ h1, b64Val_b64Char _ h2,
      e1]
    omega
  | [a, b], h => by
    have ha : a < 256 := h a (by simp)
    have hb : b < 256 := h b (by simp)
    have h1 : a / 4 < 64 := by omega
    have h2 : a % 4 * 16 + b / 16 < 64 := by omega
    have h3 : b % 16 * 4 < 64 := by omega
    have e1 : b % 16 * 4 % 4 = 0 := by omega
    simp [b64EncodeChunks, b64DecodeRaw, b64Val_b64Char _ h1, b64Val_b64Char _ h2,
      b64Val_b64Char _ h3, b64Char_ne_pad, e1]
    omega
  | a :: b :: cc :: rest, h => by
    have ha : a < 256 := h a (by simp)
    have hb : b < 256 := h b (by simp)
    have hcc : cc < 256 := h cc (by simp)
    have ih := b64DecodeRaw_encodeChunks rest (fun x hx => h x (by simp [hx]))
    have h1 : a / 4 < 64 := by omega
    have h2 : a % 4 * 16 + b / 16 < 64 := by omega
    have h3 : b % 16 * 4 + cc / 64 < 64 := by omega
    have h4 : cc % 64 < 64 := by omega
    simp [b64EncodeChunks, b64DecodeRaw, b64Val_b64Char _ h1, b64Val_b64Char _ h2,
      b64Val_b64Char _ h3, b64Val_b64Char _ h4, b64Char_ne_pad, ih]
    omega

theorem blobDeserialize_serialize (l : List Nat) (h : ∀ x ∈ l, x < 256) :
    blobDeserialize (blobSerialize l) = some l := by
  unfold blobDeserialize blobSerialize
  rw [List.filter_eq_self.mpr
    (fun c hc => by simp [b64EncodeChunks_not_ws l c hc])]
  exact b64DecodeRaw_encodeChunks l h

theorem filter_interleaveChunks (p : Char → Bool) :
    ∀ (ws : List (List Char)) (s : List Char),
      (∀ w ∈ ws, ∀ c ∈ w, p c = false) →
      (interleaveChunks ws s).filter p = s.filter p := by
  intro ws
  induction ws with
  | nil => intro s _; rfl
  | cons w ws ih =>
    intro s hws
    have hw : (w.filter p) = [] := by
      rw [List.filter_eq_nil_iff]
      intro c hc
      simp [hws w (by simp) c hc]
    have hws2 : ∀ w2 ∈ ws, ∀ c ∈ w2, p c = false :=
      fun w2 hw2 c hc => hws w2 (by simp [hw2]) c hc
    cases s with
    | nil =>
      simp only [interleaveChunks, List.filter_append, hw, List.nil_append]
      exact ih [] hws2
    | cons c cs =>
      simp only [interleaveChunks, List.filter_append, hw, List.nil_append,
        List.filter_cons]
      rw [ih cs hws2]

/-- C7: decoding the base64 encoding of any byte sequence yields the original
bytes, and because the decoder strips every whitespace character first,
injecting whitespace chunks anywhere into the encoded string leaves the
decoded bytes unchanged. -/
theorem blob_base64_roundtrip (l : List Nat) (h : ∀ x ∈ l, x < 256)
    (ws : List (List Char)) (hws : ∀ w ∈ ws, ∀ c ∈ w, c.isWhitespace = true) :
    blobDeserialize (blobSerialize l) = some l
    ∧ blobDeserialize (interleaveChunks ws (blobSerialize l)) = some l := by
  refine ⟨blobDeserialize_serialize l h, ?_⟩
  have h2 := blobDeserialize_serialize l h
  unfold blobDeserialize at h2 ⊢
  rw [filter_interleaveChunks _ ws _ (fun w hw c hc => by simp [hws w hw c hc])]
  exact h2

/-- Witness for C7 at a concrete byte list (including a 0 and a 255 and a
padding-requiring length) with newline and space/tab chunks injected. -/
theorem blob_base64_roundtrip_witness :
    blobDeserialize (blobSerialize [0, 255, 7, 9]) = some [0, 255, 7, 9]
    ∧ blobDeserialize (interleaveChunks [['\x0a'], [' ', '\x09']]
        (blobSerialize [0, 255, 7, 9])) = some [0, 255, 7, 9] :=
  blob_base64_roundtrip [0, 255, 7, 9] (by decide) [['\x0a'], [' ', '\x09']]
    (by decide)

/-! ## Claim C1: issue/PR discrimination

Serde's `Option` deserializer maps a present-but-`null` `pull_request` to
`None` before `CapsulePullRequest` is ever consulted, so a `null`-valued key
classifies the issue as `Plain`, exactly like an absent key; only a non-null
(object) value classifies it as `PullRequest`. -/

/-- C1 counterexample: a payload for issue 7 whose `pull_request` key is
present with value `null` deserializes as a `Plain` issue (not a
`PullRequest`), and `HandleIssue::try_fetch` on it succeeds with a handle
instead of failing with `IssueError::Issue{number: 7}`. -/
theorem issue_null_pull_request_is_plain :
    (deserializeIssue (Json.obj [("pull_request", Json.null),
        ("number", Json.num 7),
        ("user", Json.obj [("type", Json.str "User"), ("login", Json.str "octocat"),
          ("id", Json.num 1)]),
        ("title", Json.str "t"), ("body", Json.str "b"),
        ("state", Json.str "open")])).map Issue.isPullRequest = some false
    ∧ tryFetchIssue (fun _ => .ok (Json.obj [("pull_request", Json.null),
        ("number", Json.num 7),
        ("user", Json.obj [("type", Json.str "User"), ("login", Json.str "octocat"),
          ("id", Json.num 1)]),
        ("title", Json.str "t"), ("body", Json.str "b"),
        ("state", Json.str "open")])) 7 = .ok { number := 7 } :=
  ⟨rfl, rfl⟩

/-- C1 (amended): a payload whose `pull_request` key holds a non-null (object)
value is classified `PullRequest` and `try_fetch` rejects it with
`IssueError::Issue{number}`; a payload with the key absent — or present but
`null` — is classified `Plain` and `try_fetch` succeeds. -/
theorem issue_pull_request_discrimination (fields : List (String × Json))
    (c : IssueContent) (n : Nat)
    (hc : deserializeIssueContent fields = some c) :
    (∀ prFields, lookupField fields "pull_request" = some (Json.obj prFields) →
      deserializeIssue (Json.obj fields) = some (Issue.pullRequest c)
      ∧ tryFetchIssue (fun _ => .ok (Json.obj fields)) n = .error (.issue n))
    ∧ (lookupField fields "pull_request" = none →
      deserializeIssue (Json.obj fields) = some (Issue.plain c)
      ∧ tryFetchIssue (fun _ => .ok (Json.obj fields)) n = .ok { number := n })
    ∧ (lookupField fields "pull_request" = some Json.null →
      deserializeIssue (Json.obj fields) = some (Issue.plain c)
      ∧ tryFetchIssue (fun _ => .ok (Json.obj fields)) n = .ok { number := n }) := by
  refine ⟨?_, ?_, ?_⟩
  · intro prFields hl
    have hi : deserializeIssue (Json.obj fields) = some (Issue.pullRequest c) := by
      simp [deserializeIssue, hl, deserializePullRequestField, hc]
    exact ⟨hi, by simp [tryFetchIssue, hi, Issue.isPullRequest]⟩
  · intro hl
    have hi : deserializeIssue (Json.obj fields) = some (Issue.plain c) := by
      simp [deserializeIssue, hl, hc]
    exact ⟨hi, by simp [tryFetchIssue, hi, Issue.isPullRequest]⟩
  · intro hl
    have hi : deserializeIssue (Json.obj fields) = some (Issue.plain c) := by
      simp [deserializeIssue, hl, deserializePullRequestField, hc]
    exact ⟨hi, by simp [tryFetchIssue, hi, Issue.isPullRequest]⟩

/-- Witness for the amended C1 at a concrete pull-request payload for issue
7 (non-null `pull_request` object). -/
theorem issue_pull_request_discrimination_witness :
    deserializeIssue (Json.obj [("pull_request", Json.obj []),
        ("number", Json.num 7),
        ("user", Json.obj [("type", Json.str "User"), ("login", Json.str "octocat"),
          ("id", Json.num 1)]),
        ("title", Json.str "t"), ("body", Json.str "b"),
        ("state", Json.str "open")]) =
      some (Issue.pullRequest
        { assignees := none, number := 7, author := .user "octocat" 1,
          title := "t", body := "b", state := .open })
    ∧ tryFetchIssue (fun _ => .ok (Json.obj [("pull_request", Json.obj []),
        ("number", Json.num 7),
        ("user", Json.obj [("type", Json.str "User"), ("login", Json.str "octocat"),
          ("id", Json.num 1)]),
        ("title", Json.str "t"), ("body", Json.str "b"),
        ("state", Json.str "open")])) 7 = .error (.issue 7) :=
  (issue_pull_request_discrimination
    [("pull_request", Json.obj []), ("number", Json.num 7),
      ("user", Json.obj [("type", Json.str "User"), ("login", Json.str "octocat"),
        ("id", Json.num 1)]),
      ("title", Json.str "t"), ("body", Json.str "b"), ("state", Json.str "open")]
    { assignees := none, number := 7, author := .user "octocat" 1,
      title := "t", body := "b", state := .open }
    7 rfl).1 [] rfl

/-! ## Claim C8: absence-as-Option conveniences -/

/-- C8: `try_get_some_reference` maps exactly the domain `Nothing` error to
`Ok(None)` and success to `Ok(Some _)`; `try_has_commit` maps exactly the
transport `Client(Response(Nothing))` (404) to `Ok(false)` and success to
`Ok(true)`; `try_has_comment` maps exactly the comment `Nothing` to
`Ok(false)`; every other error propagates wrapped, unswallowed. -/
theorem absence_as_option_conveniences :
    (∀ s : List Char, tryGetSomeReference (.error (.nothing s)) = .ok none)
    ∧ (∀ r : Reference, tryGetSomeReference (.ok r) = .ok (some r))
    ∧ (∀ e : ReferenceError, e.isNothing = false →
        tryGetSomeReference (.error e) = .error (.reference e))
    ∧ (∀ (code : Nat) (msg : Option String),
        tryHasCommit (α := Unit)
          (.error (.client (.response (.nothing code msg)))) = .ok false)
    ∧ (∀ (α : Type) (h : α), tryHasCommit (.ok h) = .ok true)
    ∧ (∀ e : CommitError, e.isTransportNothing = false →
        tryHasCommit (α := Unit) (.error e) = .error (.commit e))
    ∧ (∀ n : Nat, tryHasComment (α := Unit) (.error (.nothing n)) = .ok false)
    ∧ (∀ (α : Type) (h : α), tryHasComment (.ok h) = .ok true)
    ∧ (∀ e : IssueCommentError, e.isNothing = false →
        tryHasComment (α := Unit) (.error e) = .error (.comment e)) := by
  refine ⟨fun s => rfl, fun r => rfl, ?_, fun code msg => rfl, fun α h => rfl, ?_,
    fun n => rfl, fun α h => rfl, ?_⟩
  · intro e he
    match e with
    | .client e2 => rfl
    | .invalid r => rfl
    | .circular r => rfl
    | .delete => rfl
    | .nothing r => simp [ReferenceError.isNothing] at he
  · intro e he
    match e with
    | .compare e2 => rfl
    | .reference e2 => rfl
    | .nothing sha => rfl
    | .client (.request e2) => rfl
    | .client (.response (.unauthorized c m)) => rfl
    | .client (.response (.validation c m)) => rfl
    | .client (.response (.unhandled c m)) => rfl
    | .client (.response (.malformed r)) => rfl
    | .client (.response .encoding) => rfl
    | .client (.response (.nothing c m)) =>
      simp [CommitError.isTransportNothing] at he
  · intro e he
    match e with
    | .client e2 => rfl
    | .author a => rfl
    | .nothing n => simp [IssueCommentError.isNothing] at he

/-- Witness for C8: a non-`Nothing` error of each kind propagates wrapped. -/
theorem absence_as_option_conveniences_witness :
    tryGetSomeReference (.error .delete) = .error (.reference .delete)
    ∧ tryHasCommit (α := Unit) (.error (.nothing "abc")) =
        .error (.commit (.nothing "abc"))
    ∧ tryHasComment (α := Unit) (.error (.client (.request .build))) =
        .error (.comment (.client (.request .build))) :=
  ⟨absence_as_option_conveniences.2.2.1 .delete rfl,
    absence_as_option_conveniences.2.2.2.2.2.1 (.nothing "abc") rfl,
    absence_as_option_conveniences.2.2.2.2.2.2.2.2 (.client (.request .build)) rfl⟩

/-! ## Claim C9: mutation leaves local state unchanged -/

/-- C9: on a successful PATCH, `try_set_properties` returns the very handle it
was called on — the request goes to the handle's endpoint with the given
payload and the response body (universally quantified here) is never read
back; `try_set_commit` likewise issues its PATCH and returns with the
reference value unchanged. -/
theorem set_properties_frame {α : Type} (endpointOf : α → List Char) (handle : α)
    (payload : Json) (body : Json) (repoDisplay : List Char) (self : Reference)
    (force : Bool) (sha : String) :
    trySetProperties endpointOf handle payload (.ok body) =
      .ok ({ endpoint := endpointOf handle, payload }, handle)
    ∧ trySetCommit repoDisplay self force sha (.ok body) =
      .ok ({ endpoint := "repos/".data ++ repoDisplay ++ "/git/refs/".data ++
               displayReference self,
             payload := .obj [("sha", .str sha), ("force", .bool force)] }, self) :=
  ⟨rfl, rfl⟩

end Octo
